import Mathlib

/-!
Shallow embedding of the resalloc server's control core
(`src/resallocserver/manager.py`) and proofs about it.

The embedding follows the source line by line where the code is in the
repository.  Parts of the repository that the manager imports but whose files
are not present (`resallocserver/models.py`, `resallocserver/logic.py`,
`resalloc/helpers.py`, `resallocserver/priority_queue.py`) are modelled from
the specification; every such definition carries a doc comment starting
"Modelled from the spec:".

Conventions: machine integers and epoch times are `Int`, DB counters and ids
are `Nat`, nullable columns are `Option`, byte strings are `List Nat`, and the
concurrent workers are embedded as the pure effect of their committed
transactions (atomic execution).  Python truthiness on strings and integers is
embedded exactly (`""` and `0` are falsy).
-/

namespace Resalloc

/-- Modelled from the spec: resource states (resalloc.helpers.RState; helpers.py
is not under src/).  The spec lists STARTING, UP, RELEASING, DELETE_REQUEST,
DELETING, ENDED. -/
inductive RState
  | STARTING
  | UP
  | RELEASING
  | DELETE_REQUEST
  | DELETING
  | ENDED
deriving DecidableEq

/-- Modelled from the spec: ticket states (resalloc.helpers.TState; helpers.py
is not under src/): OPEN and CLOSED. -/
inductive TState
  | OPEN
  | CLOSED
deriving DecidableEq

/-- Modelled from the spec: a ResourceTag row (models.py is not under src/):
`(resource_id, tag_id, priority)`; here kept inline on the resource, with the
tag name `id` and a nullable integer `priority`. -/
structure RTag where
  id : String
  priority : Option Int
deriving DecidableEq

/-- Modelled from the spec: the persistent Resource row (models.py is not under
src/), with the columns the spec lists in its data model.  `ticket` is the
nullable back-reference to the bound ticket's id; `tags` carries the resource's
ResourceTag rows.  Field defaults model the column defaults of a freshly
inserted row. -/
structure Resource where
  id : Nat := 0
  pool : String := ""
  name : String := ""
  state : RState := RState.STARTING
  data : Option (List Nat) := none
  check_last_time : Int := 0
  check_failed_count : Nat := 0
  sandbox : Option String := none
  sandboxed_since : Int := 0
  releases_counter : Int := 0
  released_at : Int := 0
  ticket : Option Nat := none
  tags : List RTag := []
deriving DecidableEq

/-- Modelled from the spec: the persistent Ticket row (models.py is not under
src/): state, required tag set, optional sandbox, optional waiter id. -/
structure Ticket where
  id : Nat := 0
  state : TState := TState.OPEN
  tag_set : List String := []
  sandbox : Option String := none
  tid : Option String := none
deriving DecidableEq

/-- Modelled from the spec: an IDWithinPool row (models.py is not under src/):
`(pool_name, id)` unique per pool, pointing at the resource that owns the
slot. -/
structure IDWithinPool where
  id : Nat := 0
  pool_name : String := ""
  resource_id : Nat := 0
deriving DecidableEq

/-- In-memory pool configuration (class Pool, manager.py lines 433-459), with
the class-attribute defaults of the source.  `id` is the pool's name
(`__init__` sets `self.name = id`). -/
structure Pool where
  id : String := ""
  max : Int := 4
  max_starting : Int := 1
  max_prealloc : Int := 2
  start_delay : Int := 0
  cmd_new : Option String := none
  cmd_delete : Option String := none
  cmd_livecheck : Option String := none
  cmd_release : Option String := none
  cmd_list : Option String := none
  livecheck_period : Int := 600
  tags : List RTag := []
  name_pattern : String := "\x7bpool_name\x7d_\x7bid\x7d_\x7bdatetime\x7d"
  reuse_opportunity_time : Int := 0
  reuse_max_count : Int := 0
  reuse_max_time : Int := 3600
deriving DecidableEq

/-- Pool.name mirrors the source's `self.name = id` (manager.py line 458). -/
def Pool.name (p : Pool) : String := p.id

/-- Python truthiness of a nullable string column: None and the empty string
are falsy, any other string is truthy. -/
def strTruthy : Option String → Bool
  | none => false
  | some s => s != ""

/-- REUSED_RESOURCE_PRIORITY (manager.py line 37). -/
def REUSED_RESOURCE_PRIORITY : Int := 500

/-- The literal marker bytes `<< trimmed >>` followed by a newline that
run_command appends on overflow (manager.py line 101); 14 bytes. -/
def trimMarker : List Nat :=
  [60, 60, 32, 116, 114, 105, 109, 109, 101, 100, 32, 62, 62, 10]

/-- The stdout-capture loop of run_command (manager.py lines 74-105): iterate
over the lines of stdout carrying `stdout_written` (bytes captured so far),
`stdout_stopped` and `captured_string`.  A line that would overflow the budget
stops the capture; with `catch_stdout_lines_securely = false` the marker is
appended, and when nothing was captured yet the first `catch_stdout_bytes`
bytes of the overflowing line are captured before it. -/
def captureLoop (catch_stdout_bytes : Nat) (securely : Bool) :
    List (List Nat) → Nat → Bool → List Nat → List Nat
  | [], _, _, captured_string => captured_string
  | line :: rest, stdout_written, stdout_stopped, captured_string =>
    if stdout_stopped then
      captureLoop catch_stdout_bytes securely rest stdout_written stdout_stopped
        captured_string
    else if stdout_written + line.length > catch_stdout_bytes then
      let captured1 :=
        if stdout_written == 0 && !securely then
          captured_string ++ line.take catch_stdout_bytes
        else captured_string
      let captured2 := if !securely then captured1 ++ trimMarker else captured1
      captureLoop catch_stdout_bytes securely rest stdout_written true captured2
    else
      captureLoop catch_stdout_bytes securely rest (stdout_written + line.length)
        stdout_stopped (captured_string ++ line)

/-- Result of run_command (manager.py 53-111): the exit status, and the
captured stdout when a capture budget was given. -/
structure RunResult where
  status : Int
  stdout : Option (List Nat)
deriving DecidableEq

/-- run_command (manager.py lines 53-111), as the function from the hook's exit
status and stdout lines to its result.  `catch_stdout_bytes = 0` models the
falsy budget (None or 0): the command runs attached to the log and only the
status is returned; otherwise the capture loop runs over the stdout lines. -/
def run_command (status : Int) (catch_stdout_bytes : Nat)
    (catch_stdout_lines_securely : Bool) (lines : List (List Nat)) : RunResult :=
  if catch_stdout_bytes == 0 then { status := status, stdout := none }
  else
    { status := status,
      stdout := some (captureLoop catch_stdout_bytes catch_stdout_lines_securely
        lines 0 false []) }

/-- Straight-line form of `captureLoop` before the capture has stopped: what is
appended to an accumulator with `stdout_written` bytes already captured. -/
def captureLines (catch_stdout_bytes : Nat) (securely : Bool) :
    List (List Nat) → Nat → List Nat
  | [], _ => []
  | line :: rest, stdout_written =>
    if stdout_written + line.length > catch_stdout_bytes then
      (if stdout_written == 0 && !securely then line.take catch_stdout_bytes
       else []) ++
      (if !securely then trimMarker else [])
    else line ++ captureLines catch_stdout_bytes securely rest
      (stdout_written + line.length)

/-- Helper for the termination of the id-search loop: removing the threshold
value `t` from the candidates strictly shrinks the count of list members that
are at least `t`, provided `t` is a member. -/
theorem countP_ge_succ_lt_of_mem (ids : List Nat) (t : Nat) (h : t ∈ ids) :
    (ids.countP fun x => decide (t + 1 ≤ x)) < ids.countP fun x => decide (t ≤ x) := by
  induction ids with
  | nil => cases h
  | cons a l ih =>
    rcases List.mem_cons.mp h with rfl | hl
    · have hmono : (l.countP fun x => decide (t + 1 ≤ x)) ≤
          l.countP fun x => decide (t ≤ x) :=
        List.countP_mono_left (fun x _ hx => by simp at hx ⊢; omega)
      rw [List.countP_cons, List.countP_cons]
      have e1 : (decide (t + 1 ≤ t)) = false := by simp
      have e2 : (decide (t ≤ t)) = true := by simp
      rw [e1, e2]
      simp only [Bool.false_eq_true, if_false, if_true]
      omega
    · have ihh := ih hl
      rw [List.countP_cons, List.countP_cons]
      have hif : (if decide (t + 1 ≤ a) = true then 1 else 0) ≤
          if decide (t ≤ a) = true then (1 : Nat) else 0 := by
        by_cases hc : t + 1 ≤ a
        · have hc2 : t ≤ a := by omega
          simp [hc, hc2]
        · simp [hc]
      omega

/-- The `while True` search of Pool._allocate_pool_id (manager.py lines
497-508): starting from `try_id`, count upward past every id already used. -/
def _allocate_pool_id_try (ids : List Nat) (try_id : Nat) : Nat :=
  if try_id ∈ ids then _allocate_pool_id_try ids (try_id + 1) else try_id
termination_by ids.countP fun x => decide (try_id ≤ x)
decreasing_by
  rename_i h
  exact countP_ge_succ_lt_of_mem ids try_id h

/-- Pool._allocate_pool_id (manager.py lines 488-508): collect the ids of the
pool's IDWithinPool rows, search for the lowest free id from 0, and build the
new row for `resource_id`. -/
def _allocate_pool_id (rows : List IDWithinPool) (pool_name : String)
    (resource_id : Nat) : IDWithinPool :=
  let ids := (rows.filter fun r => r.pool_name == pool_name).map IDWithinPool.id
  { id := _allocate_pool_id_try ids 0,
    pool_name := pool_name,
    resource_id := resource_id }

/-- Python's str() applied to a nullable integer: `None` renders as the literal
string "None". -/
def pyStrNat : Option Nat → String
  | none => "None"
  | some n => toString n

/-- Python's str() applied to a nullable string: `None` renders as the literal
string "None". -/
def pyStrStr : Option String → String
  | none => "None"
  | some s => s

/-- The RFC 4648 base64 alphabet, for base64.b64encode. -/
def b64Alphabet : List Char :=
  "ABCDEFGHIJKLMNOPQRSTUVWXYZabcdefghijklmnopqrstuvwxyz0123456789+/".toList

/-- One base64 digit. -/
def b64Digit (n : Nat) : Char := b64Alphabet.getD n 'A'

/-- base64.b64encode over a byte string (bytes are naturals below 256),
including the `=` padding of RFC 4648. -/
def b64encode : List Nat → String
  | a :: b :: c :: rest =>
    String.mk [b64Digit (a / 4), b64Digit (a % 4 * 16 + b / 16),
      b64Digit (b % 16 * 4 + c / 64), b64Digit (c % 64)] ++ b64encode rest
  | [a, b] =>
    String.mk [b64Digit (a / 4), b64Digit (a % 4 * 16 + b / 16),
      b64Digit (b % 16 * 4), '=']
  | [a] => String.mk [b64Digit (a / 4), b64Digit (a % 4 * 16), '=', '=']
  | [] => ""

/-- command_env (manager.py lines 40-50): copy the base environment, define the
four RESALLOC_ variables (str() of possibly-None values), and define
RESALLOC_RESOURCE_DATA as base64 of `data` only when data is not None.  The
environment is an association list looked up with `List.lookup`. -/
def command_env (base : List (String × String)) (pool_id : Option String)
    (res_id : Option Nat) (res_name : Option String) (id_in_pool : Option Nat)
    (data : Option (List Nat)) : List (String × String) :=
  ("RESALLOC_ID", pyStrNat res_id) ::
  ("RESALLOC_NAME", pyStrStr res_name) ::
  ("RESALLOC_POOL_ID", pyStrStr pool_id) ::
  ("RESALLOC_ID_IN_POOL", pyStrNat id_in_pool) ::
  (match data with
   | some d => ("RESALLOC_RESOURCE_DATA", b64encode d) :: base
   | none => base)

/-- The commit transaction of ReleaseWorker.job after cmd_release returned
`status` (manager.py lines 235-247), and whether the shared event is signalled
(lines 246-247): on failure `releases_counter` is set to `reuse_max_count + 1`,
the state is set to UP in every case, and the event is set only when the hook
exited zero. -/
def releaseWorkerCommit (cfg : Pool) (r : Resource) (status : Int) :
    Resource × Bool :=
  let r1 := if status != 0 then
      { r with releases_counter := cfg.reuse_max_count + 1 }
    else r
  let r2 := { r1 with state := RState.UP }
  (r2, status == 0)

/-- What one TerminateWorker run does, as observable effects: the sequence of
states committed for the resource, the surviving IDWithinPool rows, whether
cmd_delete ran, whether the shared event was set, and whether the warning path
returned early. -/
structure TerminateOutcome where
  stateTrace : List RState
  idRows : List IDWithinPool
  ranCmdDelete : Bool
  eventSet : Bool
  warned : Bool
deriving DecidableEq

/-- TerminateWorker.job with its close() (manager.py lines 172-215): if a
ticket is bound and OPEN, log a warning and return without any transition;
otherwise commit DELETING, run cmd_delete when it is truthy, then commit ENDED,
delete the resource's IDWithinPool row and set the event. -/
def terminateWorkerJob (cmd_delete : Option String) (ticket : Option Ticket)
    (res_id : Nat) (idRows : List IDWithinPool) : TerminateOutcome :=
  match ticket with
  | some t =>
    if t.state = TState.OPEN then
      { stateTrace := [], idRows := idRows, ranCmdDelete := false,
        eventSet := false, warned := true }
    else
      { stateTrace := [RState.DELETING, RState.ENDED],
        idRows := idRows.filter fun row => row.resource_id != res_id,
        ranCmdDelete := strTruthy cmd_delete, eventSet := true, warned := false }
  | none =>
    { stateTrace := [RState.DELETING, RState.ENDED],
      idRows := idRows.filter fun row => row.resource_id != res_id,
      ranCmdDelete := strTruthy cmd_delete, eventSet := true, warned := false }

/-- Modelled from the spec: QResources.check_failure_candidates (logic.py is
not under src/) — "UP resources with a bound OPEN ticket excluded": checks run
on taken resources but removal requires no open ticket. -/
def check_failure_candidate (tickets : List Ticket) (r : Resource) : Bool :=
  r.state == RState.UP &&
    !(tickets.any fun t => r.ticket == some t.id && t.state == TState.OPEN)

/-- Modelled from the spec: QResources.clean_candidates (logic.py is not under
src/) — "UP resources not currently bound that are eligible for the reuse
policy". -/
def clean_candidate (r : Resource) : Bool :=
  r.state == RState.UP && r.ticket == none

/-- The reuse-policy chain of Pool._request_resource_removal (manager.py lines
659-687) for one clean candidate: DELETE_REQUEST on the first matching rule.
Each `if self.reuse_…:` test is Python truthiness on an integer, i.e. `≠ 0`. -/
def reusePolicyRemoves (cfg : Pool) (now : Int) (r : Resource) : Bool :=
  if cfg.reuse_opportunity_time = 0 then true
  else if r.released_at < now - cfg.reuse_opportunity_time then true
  else if cfg.reuse_max_time ≠ 0 ∧ r.sandboxed_since < now - cfg.reuse_max_time then
    true
  else if cfg.reuse_max_count ≠ 0 ∧ r.releases_counter > cfg.reuse_max_count then
    true
  else false

/-- Pool._request_resource_removal (manager.py lines 646-687): in one
transaction, first every check-failure candidate with check_failed_count ≥ 3
goes to DELETE_REQUEST; then every clean candidate of the resulting table goes
to DELETE_REQUEST when the reuse policy fires (the clean-candidate query runs
after the first pass's mutations). -/
def _request_resource_removal (cfg : Pool) (now : Int) (tickets : List Ticket)
    (resources : List Resource) : List Resource :=
  let pass1 := resources.map fun r =>
    if check_failure_candidate tickets r ∧ 3 ≤ r.check_failed_count then
      { r with state := RState.DELETE_REQUEST }
    else r
  pass1.map fun r =>
    if clean_candidate r ∧ reusePolicyRemoves cfg now r then
      { r with state := RState.DELETE_REQUEST }
    else r

/-- The per-resource update committed by Watcher.loop after running
cmd_livecheck (manager.py lines 415-425): check_last_time becomes now;
check_failed_count is incremented on a non-zero exit and reset to 0 on
success. -/
def watcherUpdate (now : Int) (failed : Bool) (r : Resource) : Resource :=
  { r with check_last_time := now,
           check_failed_count := if failed then r.check_failed_count + 1 else 0 }

/-- One item of the Watcher's check loop (manager.py lines 397-425): look the
pool up in the reloaded configuration, skip when cmd_livecheck is falsy or the
check is not due yet, otherwise run the hook (`status` gives its exit code by
resource id) and commit the update.  The accumulator carries the resource
table and the ids whose hook ran. -/
def watcherCheckOne (pools : List Pool) (now : Int) (status : Nat → Int)
    (acc : List Resource × List Nat) (item : Resource) :
    List Resource × List Nat :=
  match pools.find? (fun p => p.id == item.pool) with
  | none => acc
  | some pool =>
    if !(strTruthy pool.cmd_livecheck) then acc
    else if decide (item.check_last_time + pool.livecheck_period > now) then acc
    else
      (acc.1.map fun r =>
        if r.id == item.id then watcherUpdate now (status item.id != 0) r else r,
       acc.2 ++ [item.id])

/-- Watcher.loop (manager.py lines 375-425): reload the pool configuration,
snapshot the UP resources whose pool is a key of it (`if not item.pool in
pools: continue`), then run the livecheck pass over the snapshot. -/
def watcherLoop (pools : List Pool) (now : Int) (status : Nat → Int)
    (resources : List Resource) : List Resource × List Nat :=
  let to_check := resources.filter fun r =>
    r.state == RState.UP && pools.any fun p => p.id == r.pool
  to_check.foldl (watcherCheckOne pools now status) (resources, [])

/-- Python str.zfill for the nonnegative decimal strings used here: left-pad
with '0' up to the requested width. -/
def zfill (s : String) (width : Nat) : String :=
  String.mk (List.replicate (width - s.length) '0' ++ s.toList)

/-- The opening-brace character, written by code point. -/
def lbraceChar : Char := Char.ofNat 123

/-- The closing-brace character, written by code point. -/
def rbraceChar : Char := Char.ofNat 125

/-- Modelled from the spec: the scanner of helpers.careful_string_format
(resalloc/helpers.py is not under src/).  Outside a placeholder (`none`) copy
characters and enter a placeholder at an opening brace; inside (`some acc`)
collect the name until the closing brace, then substitute its value, keeping
an unknown or unterminated placeholder as literal text. -/
def csfGo (values : List (String × String)) :
    List Char → Option (List Char) → List Char
  | [], none => []
  | [], some acc => lbraceChar :: acc.reverse
  | c :: cs, none =>
    if c = lbraceChar then csfGo values cs (some [])
    else c :: csfGo values cs none
  | c :: cs, some acc =>
    if c = rbraceChar then
      (match values.lookup (String.mk acc.reverse) with
       | some v => v.toList
       | none => lbraceChar :: (acc.reverse ++ [rbraceChar])) ++ csfGo values cs none
    else csfGo values cs (some (c :: acc))

/-- Modelled from the spec: helpers.careful_string_format (resalloc/helpers.py
is not under src/) — format the pattern with the given placeholder values,
without failing on placeholders that have no value. -/
def careful_string_format (pattern : String) (values : List (String × String)) :
    String :=
  String.mk (csfGo values pattern.toList none)

/-- The pool statistics the allocation loop reads. -/
structure Stats where
  on' : Nat
  free : Nat
  start : Nat
deriving DecidableEq

/-- Modelled from the spec: QResources(session, pool).stats() (logic.py is not
under src/) — "stats(pool): dict (on, free, start) where on =
not-ENDED-not-DELETING count; free = UP without ticket; start = STARTING",
counted over the pool's resources. -/
def stats (pool : String) (resources : List Resource) : Stats :=
  { on' := resources.countP fun r =>
      r.pool == pool && r.state != RState.ENDED && r.state != RState.DELETING,
    free := resources.countP fun r =>
      r.pool == pool && r.state == RState.UP && r.ticket == none,
    start := resources.countP fun r =>
      r.pool == pool && r.state == RState.STARTING }

/-- The per-pool persistent state the allocation loop touches: the Resource
table, the IDWithinPool table, the pool row's `last_start`, the next
autoincrement Resource id (primary keys start at 1), and the resource ids an
AllocWorker was spawned for. -/
structure PoolState where
  resources : List Resource := []
  idRows : List IDWithinPool := []
  last_start : Int := 0
  next_id : Nat := 1
  spawned : List Nat := []
deriving DecidableEq

/-- Pool.allocate (manager.py lines 511-534): in one transaction set the pool
row's last_start to now, insert a fresh Resource (autoincrement id, the pool's
name, state STARTING by column default), assign the lowest free IDWithinPool
slot, and set the resource name from name_pattern with the global resource id
zero-padded to 8 digits and the pool name; finally spawn an AllocWorker when
the new resource id is truthy (`if resource_id:`). -/
def Pool.allocate (cfg : Pool) (now : Int) (st : PoolState) : PoolState :=
  let resource_id := st.next_id
  let idRow := _allocate_pool_id st.idRows cfg.name resource_id
  let resource : Resource :=
    { id := resource_id, pool := cfg.name,
      name := careful_string_format cfg.name_pattern
        [("id", zfill (toString resource_id) 8), ("pool_name", cfg.name)],
      state := RState.STARTING }
  { resources := st.resources ++ [resource],
    idRows := st.idRows ++ [idRow],
    last_start := now,
    next_id := st.next_id + 1,
    spawned := st.spawned ++ if resource_id != 0 then [resource_id] else [] }

/-- Pool._too_soon (manager.py lines 558-573): the pool row's last_start plus
start_delay is still in the future (`last_start + self.start_delay >
time.time()`). -/
def _too_soon (cfg : Pool) (now : Int) (st : PoolState) : Bool :=
  decide (st.last_start + cfg.start_delay > now)

/-- The quota condition of Pool._allocate_more_resources (manager.py lines
586-589): stop when on ≥ max, or free + start ≥ max_prealloc, or start ≥
max_starting, or it is too soon after the last start. -/
def stopAllocating (cfg : Pool) (now : Int) (st : PoolState) : Bool :=
  let s := stats cfg.name st.resources
  decide ((s.on' : Int) ≥ cfg.max) ||
  decide (((s.free : Int) + (s.start : Int)) ≥ cfg.max_prealloc) ||
  decide ((s.start : Int) ≥ cfg.max_starting) ||
  _too_soon cfg now st

/-- One allocate call appends exactly one STARTING resource of the pool, so
`on` and `start` grow by one and `free` is unchanged. -/
theorem stats_allocate (cfg : Pool) (now : Int) (st : PoolState) :
    stats cfg.name (cfg.allocate now st).resources =
      { on' := (stats cfg.name st.resources).on' + 1,
        free := (stats cfg.name st.resources).free,
        start := (stats cfg.name st.resources).start + 1 } := by
  simp [Pool.allocate, stats, List.countP_append, List.countP_cons]

/-- Pool._allocate_more_resources (manager.py lines 575-593): read the stats
and keep allocating until a quota condition stops the loop. -/
def _allocate_more_resources (cfg : Pool) (now : Int) (st : PoolState) :
    PoolState :=
  if stopAllocating cfg now st then st
  else _allocate_more_resources cfg now (cfg.allocate now st)
termination_by (cfg.max_starting - ((stats cfg.name st.resources).start : Int)).toNat
decreasing_by
  rename_i h
  have hlt : ((stats cfg.name st.resources).start : Int) < cfg.max_starting := by
    simp only [stopAllocating, Bool.or_eq_true, decide_eq_true_iff] at h
    push_neg at h
    exact h.1.2
  rw [stats_allocate]
  simp only []
  push_cast
  omega

/-- The tag names of a resource (models.py's Resource.tag_set property:
the ids of its ResourceTag rows). -/
def tagSetOf (r : Resource) : List String := r.tags.map RTag.id

/-- The candidate guards of Manager._assign_tickets (manager.py lines 739-742):
a ready resource is skipped when its sandbox is truthy and differs from the
ticket's, or when the ticket's tag set is not a subset of its tag set. -/
def assignCandidate (t : Ticket) (r : Resource) : Bool :=
  !(strTruthy r.sandbox && r.sandbox != t.sandbox) &&
    t.tag_set.all fun s => decide (s ∈ tagSetOf r)

/-- The candidate score of Manager._assign_tickets (manager.py lines 744-753):
start from 0, add the priority of every resource tag whose priority is not None
and whose name is in the ticket's tag set, and add REUSED_RESOURCE_PRIORITY
when the resource's sandbox is truthy. -/
def assignPriority (t : Ticket) (r : Resource) : Int :=
  let base := r.tags.foldl
    (fun acc tag =>
      if tag.priority ≠ none ∧ tag.id ∈ t.tag_set then acc + tag.priority.getD 0
      else acc) 0
  if strTruthy r.sandbox then base + REUSED_RESOURCE_PRIORITY else base

/-- The priority queue _assign_tickets fills (manager.py lines 735-755): the
candidate resources in table order, each with its score. -/
def buildQueue (t : Ticket) (resources : List Resource) : List (Resource × Int) :=
  (resources.filter (assignCandidate t)).map fun r => (r, assignPriority t r)

/-- Modelled from the spec: PriorityQueue.pop_task
(resallocserver/priority_queue.py is not under src/) — a max-heap keyed by
(priority, insertion order): pop returns a highest-priority task, the earliest
inserted among ties, and fails on an empty queue. -/
def popTaskAux : List (Resource × Int) → Option (Resource × Int)
  | [] => none
  | x :: rest =>
    match popTaskAux rest with
    | none => some x
    | some y => if y.2 > x.2 then some y else some x

/-- pop_task projected to the resource. -/
def popTask (queue : List (Resource × Int)) : Option Resource :=
  (popTaskAux queue).map Prod.fst

/-- Modelled from the spec: assign_ticket (resallocserver/logic.py is not under
src/) — "Bind: set resource.ticket = ticket; if R.sandbox was null set
R.sandbox = ticket.sandbox and R.sandboxed_since = now." -/
def assign_ticket (now : Int) (t : Ticket) (r : Resource) : Resource :=
  let r1 := { r with ticket := some t.id }
  if r1.sandbox = none then
    { r1 with sandbox := t.sandbox, sandboxed_since := now }
  else r1

/-- Modelled from the spec: QResources.ready (logic.py is not under src/) —
"UP resources with no bound OPEN ticket". -/
def isReady (tickets : List Ticket) (r : Resource) : Bool :=
  r.state == RState.UP &&
    !(tickets.any fun t => r.ticket == some t.id && t.state == TState.OPEN)

/-- The persistent tables the ticket-assignment pass reads and writes. -/
structure DB where
  resources : List Resource := []
  tickets : List Ticket := []
deriving DecidableEq

/-- Modelled from the spec: QTickets.waiting (logic.py is not under src/) —
"tickets in OPEN with no bound resource". -/
def waitingTicket (resources : List Resource) (t : Ticket) : Bool :=
  t.state == TState.OPEN && !(resources.any fun r => r.ticket == some t.id)

/-- The body of the per-ticket loop of Manager._assign_tickets (manager.py
lines 724-768): load the ticket, load the ready resources and skip when there
are none, build the priority queue over the candidates, pop the best candidate
(the KeyError path skips when the queue is empty) and bind it to the ticket. -/
def assignTicketStep (now : Int) (db : DB) (ticket_id : Nat) : DB :=
  match db.tickets.find? (fun t => t.id == ticket_id) with
  | none => db
  | some ticket =>
    let resources := db.resources.filter (isReady db.tickets)
    if resources.isEmpty then db
    else
      match popTask (buildQueue ticket resources) with
      | none => db
      | some res =>
        { db with resources := db.resources.map fun r =>
            if r.id == res.id then assign_ticket now ticket r else r }

/-- Manager._assign_tickets (manager.py lines 719-772): snapshot the waiting
tickets ordered by ascending ticket id (`waiting().order_by(models.Ticket.id)`),
then run the per-ticket loop over the snapshot. -/
def _assign_tickets (now : Int) (db : DB) : DB :=
  let ids := List.insertionSort (fun a b => a ≤ b)
    ((db.tickets.filter (waitingTicket db.resources)).map Ticket.id)
  ids.foldl (assignTicketStep now) db

/-- The ticket ids _assign_tickets processes, in order. -/
def assignOrder (db : DB) : List Nat :=
  List.insertionSort (fun a b => a ≤ b)
    ((db.tickets.filter (waitingTicket db.resources)).map Ticket.id)

/-- The id-search loop skips exactly the used ids: its result is not in `ids`,
and every id from the starting point up to the result is in `ids`. -/
theorem _allocate_pool_id_try_spec (ids : List Nat) :
    ∀ n try_id, (ids.countP fun x => decide (try_id ≤ x)) = n →
      _allocate_pool_id_try ids try_id ∉ ids ∧
        ∀ j, try_id ≤ j → j < _allocate_pool_id_try ids try_id → j ∈ ids := by
  intro n
  induction n using Nat.strong_induction_on with
  | _ n IH =>
    intro try_id hn
    rw [_allocate_pool_id_try]
    by_cases h : try_id ∈ ids
    · rw [if_pos h]
      have hlt := countP_ge_succ_lt_of_mem ids try_id h
      obtain ⟨h1, h2⟩ := IH _ (hn ▸ hlt) (try_id + 1) rfl
      refine ⟨h1, fun j hj1 hj2 => ?_⟩
      rcases Nat.eq_or_lt_of_le hj1 with rfl | hj3
      · exact h
      · exact h2 j hj3 hj2
    · rw [if_neg h]
      exact ⟨h, fun j h1 h2 => absurd (Nat.lt_of_le_of_lt h1 h2) (Nat.lt_irrefl try_id)⟩

/-- From 0, the id-search loop returns the least natural not in `ids`. -/
theorem _allocate_pool_id_try_least (ids : List Nat) :
    _allocate_pool_id_try ids 0 ∉ ids ∧
      ∀ j, j < _allocate_pool_id_try ids 0 → j ∈ ids := by
  obtain ⟨h1, h2⟩ := _allocate_pool_id_try_spec ids _ 0 rfl
  exact ⟨h1, fun j hj => h2 j (Nat.zero_le j) hj⟩

/-- The lowest-free property of Pool._allocate_pool_id over the pool's
IDWithinPool rows. -/
theorem _allocate_pool_id_spec (rows : List IDWithinPool) (pool_name : String)
    (resource_id : Nat) :
    (_allocate_pool_id rows pool_name resource_id).pool_name = pool_name ∧
    (_allocate_pool_id rows pool_name resource_id).resource_id = resource_id ∧
    (_allocate_pool_id rows pool_name resource_id).id ∉
      (rows.filter fun r => r.pool_name == pool_name).map IDWithinPool.id ∧
    ∀ j, j < (_allocate_pool_id rows pool_name resource_id).id →
      j ∈ (rows.filter fun r => r.pool_name == pool_name).map IDWithinPool.id := by
  obtain ⟨h1, h2⟩ :=
    _allocate_pool_id_try_least
      ((rows.filter fun r => r.pool_name == pool_name).map IDWithinPool.id)
  exact ⟨rfl, rfl, h1, h2⟩

/-- C7: for every table of IDWithinPool rows, Pool._allocate_pool_id returns a
new IDWithinPool row of the requested pool and resource whose id is the lowest
non-negative integer not currently used in that pool: the id is used by no row
of the pool, every smaller natural is used by some row of the pool, and when
the pool has no rows the id is 0. -/
theorem allocate_pool_id_lowest_free (rows : List IDWithinPool)
    (pool_name : String) (resource_id : Nat) :
    (_allocate_pool_id rows pool_name resource_id).pool_name = pool_name ∧
    (_allocate_pool_id rows pool_name resource_id).resource_id = resource_id ∧
    (_allocate_pool_id rows pool_name resource_id).id ∉
      (rows.filter fun r => r.pool_name == pool_name).map IDWithinPool.id ∧
    (∀ j, j < (_allocate_pool_id rows pool_name resource_id).id →
      j ∈ (rows.filter fun r => r.pool_name == pool_name).map IDWithinPool.id) ∧
    ((rows.filter fun r => r.pool_name == pool_name) = [] →
      (_allocate_pool_id rows pool_name resource_id).id = 0) := by
  obtain ⟨h1, h2, h3, h4⟩ := _allocate_pool_id_spec rows pool_name resource_id
  refine ⟨h1, h2, h3, h4, fun hempty => ?_⟩
  by_contra hne
  have h0 : 0 < (_allocate_pool_id rows pool_name resource_id).id :=
    Nat.pos_of_ne_zero hne
  have := h4 0 h0
  rw [hempty] at this
  simp at this

/-- Witness for C7 at a concrete pool table: rows use slots 0, 1 and 3 of pool
"p" (and slot 0 of pool "q"), so the allocator hands out slot 2. -/
theorem allocate_pool_id_lowest_free_witness :
    (_allocate_pool_id
      [{ id := 0, pool_name := "p", resource_id := 5 },
       { id := 1, pool_name := "p", resource_id := 6 },
       { id := 3, pool_name := "p", resource_id := 7 },
       { id := 0, pool_name := "q", resource_id := 8 }] "p" 9).id ∉
      (([{ id := 0, pool_name := "p", resource_id := 5 },
         { id := 1, pool_name := "p", resource_id := 6 },
         { id := 3, pool_name := "p", resource_id := 7 },
         { id := 0, pool_name := "q", resource_id := 8 }] :
          List IDWithinPool).filter fun r => r.pool_name == "p").map
        IDWithinPool.id ∧
    (_allocate_pool_id
      [{ id := 0, pool_name := "p", resource_id := 5 },
       { id := 1, pool_name := "p", resource_id := 6 },
       { id := 3, pool_name := "p", resource_id := 7 },
       { id := 0, pool_name := "q", resource_id := 8 }] "p" 9).id = 2 := by
  constructor
  · exact (allocate_pool_id_lowest_free _ "p" 9).2.2.1
  · show _allocate_pool_id_try _ 0 = 2
    rw [_allocate_pool_id_try]
    norm_num
    rw [_allocate_pool_id_try]
    norm_num
    rw [_allocate_pool_id_try]
    norm_num

/-- C8: command_env defines RESALLOC_ID, RESALLOC_NAME, RESALLOC_POOL_ID and
RESALLOC_ID_IN_POOL in every case, rendering an absent field as the literal
string "None", and it defines RESALLOC_RESOURCE_DATA as the base64 encoding of
the resource's data exactly when data is non-null: when data is null the
variable is as absent as it is in the base environment. -/
theorem command_env_spec (base : List (String × String)) (pool_id : Option String)
    (res_id : Option Nat) (res_name : Option String) (id_in_pool : Option Nat)
    (data : Option (List Nat))
    (hbase : base.lookup "RESALLOC_RESOURCE_DATA" = none) :
    (command_env base pool_id res_id res_name id_in_pool data).lookup
        "RESALLOC_ID" = some (pyStrNat res_id) ∧
    (command_env base pool_id res_id res_name id_in_pool data).lookup
        "RESALLOC_NAME" = some (pyStrStr res_name) ∧
    (command_env base pool_id res_id res_name id_in_pool data).lookup
        "RESALLOC_POOL_ID" = some (pyStrStr pool_id) ∧
    (command_env base pool_id res_id res_name id_in_pool data).lookup
        "RESALLOC_ID_IN_POOL" = some (pyStrNat id_in_pool) ∧
    (command_env base pool_id res_id res_name id_in_pool data).lookup
        "RESALLOC_RESOURCE_DATA" = data.map (fun d => b64encode d) ∧
    pyStrNat none = "None" ∧ pyStrStr none = "None" := by
  cases data with
  | none =>
    refine ⟨?_, ?_, ?_, ?_, ?_, rfl, rfl⟩ <;>
      simp [command_env, List.lookup, hbase]
  | some d =>
    refine ⟨?_, ?_, ?_, ?_, ?_, rfl, rfl⟩ <;>
      simp [command_env, List.lookup]

/-- Witness for C8: a concrete hook environment; the name is absent and
renders as "None", the data is the bytes of "Man", whose base64 is "TWFu". -/
theorem command_env_spec_witness :
    ([("PATH", "/bin")] : List (String × String)).lookup
        "RESALLOC_RESOURCE_DATA" = none ∧
    (command_env [("PATH", "/bin")] (some "poolA") (some 7) none none
        (some [77, 97, 110])).lookup "RESALLOC_NAME" = some "None" ∧
    (command_env [("PATH", "/bin")] (some "poolA") (some 7) none none
        (some [77, 97, 110])).lookup "RESALLOC_RESOURCE_DATA" = some "TWFu" ∧
    (command_env [("PATH", "/bin")] (some "poolA") (some 7) none none
        none).lookup "RESALLOC_RESOURCE_DATA" = none := by
  have h1 := command_env_spec [("PATH", "/bin")] (some "poolA") (some 7) none none
    (some [77, 97, 110]) (by decide)
  have h2 := command_env_spec [("PATH", "/bin")] (some "poolA") (some 7) none none
    none (by decide)
  refine ⟨by decide, ?_, ?_, ?_⟩
  · rw [h1.2.1]
    rfl
  · rw [h1.2.2.2.2.1]
    decide
  · rw [h2.2.2.2.2.1]
    rfl

/-- C4 (amended): after cmd_release returns, the ReleaseWorker commit sets the
resource state to UP in every case; on a non-zero exit it sets
releases_counter to reuse_max_count + 1; on a zero exit it leaves
releases_counter and released_at unchanged (that bookkeeping happens at
ticket-close time, not here); and the shared event is signalled if and only if
the hook exited zero. -/
theorem release_worker_commit_spec (cfg : Pool) (r : Resource) (status : Int) :
    (releaseWorkerCommit cfg r status).1.state = RState.UP ∧
    (status ≠ 0 →
      (releaseWorkerCommit cfg r status).1.releases_counter =
        cfg.reuse_max_count + 1) ∧
    (status = 0 →
      (releaseWorkerCommit cfg r status).1.releases_counter =
          r.releases_counter ∧
        (releaseWorkerCommit cfg r status).1.released_at = r.released_at) ∧
    ((releaseWorkerCommit cfg r status).2 = true ↔ status = 0) := by
  by_cases h : status = 0 <;> simp [releaseWorkerCommit, h]

/-- Witness for C4's amended theorem at a concrete resource: a failing release
poisons the counter, a successful one signals the event. -/
theorem release_worker_commit_spec_witness :
    (releaseWorkerCommit { reuse_max_count := 2 }
        { releases_counter := 5, released_at := 7 } 1).1.releases_counter = 3 ∧
    (releaseWorkerCommit { reuse_max_count := 2 }
        { releases_counter := 5, released_at := 7 } 0).2 = true := by
  constructor
  · have h := (release_worker_commit_spec { reuse_max_count := 2 }
      { releases_counter := 5, released_at := 7 } 1).2.1 (by norm_num)
    rw [h]
    rfl
  · exact (release_worker_commit_spec { reuse_max_count := 2 }
      { releases_counter := 5, released_at := 7 } 0).2.2.2.mpr rfl

/-- Counterexample to C4 as stated: on a zero exit the commit transaction does
not increment releases_counter and does not set released_at to the current
time; with releases_counter = 5 and released_at = 7 both keep their old
values. -/
theorem release_worker_success_no_bookkeeping_cex :
    (releaseWorkerCommit { reuse_max_count := 2 }
        { releases_counter := 5, released_at := 7 } 0).1.releases_counter = 5 ∧
    (releaseWorkerCommit { reuse_max_count := 2 }
        { releases_counter := 5, released_at := 7 } 0).1.releases_counter ≠ 5 + 1 ∧
    (releaseWorkerCommit { reuse_max_count := 2 }
        { releases_counter := 5, released_at := 7 } 0).1.released_at = 7 ∧
    (releaseWorkerCommit { reuse_max_count := 2 }
        { releases_counter := 5, released_at := 7 } 0).1.released_at ≠ 100 := by
  decide

/-- C6: TerminateWorker first re-checks the resource: with a bound OPEN ticket
it only warns and changes nothing; otherwise it commits DELETING, runs
cmd_delete exactly when it is configured (truthy), commits ENDED, deletes the
resource's IDWithinPool row and signals the shared event. -/
theorem terminate_worker_spec (cmd_delete : Option String)
    (ticket : Option Ticket) (res_id : Nat) (idRows : List IDWithinPool) :
    (∀ t, ticket = some t → t.state = TState.OPEN →
      terminateWorkerJob cmd_delete ticket res_id idRows =
        { stateTrace := [], idRows := idRows, ranCmdDelete := false,
          eventSet := false, warned := true }) ∧
    ((ticket = none ∨ ∃ t, ticket = some t ∧ t.state = TState.CLOSED) →
      terminateWorkerJob cmd_delete ticket res_id idRows =
        { stateTrace := [RState.DELETING, RState.ENDED],
          idRows := idRows.filter fun row => row.resource_id != res_id,
          ranCmdDelete := strTruthy cmd_delete, eventSet := true,
          warned := false }) := by
  constructor
  · rintro t rfl hopen
    simp [terminateWorkerJob, hopen]
  · rintro (rfl | ⟨t, rfl, hclosed⟩)
    · simp [terminateWorkerJob]
    · have : ¬(t.state = TState.OPEN) := by rw [hclosed]; intro h; cases h
      simp [terminateWorkerJob, this]

/-- Witness for C6: a concrete resource with a CLOSED bound ticket is
terminated, its slot row (resource 4) disappears and the other row stays. -/
theorem terminate_worker_spec_witness :
    terminateWorkerJob (some "rm it") (some { id := 9, state := TState.CLOSED })
        4 [{ id := 0, pool_name := "p", resource_id := 4 },
           { id := 1, pool_name := "p", resource_id := 5 }] =
      { stateTrace := [RState.DELETING, RState.ENDED],
        idRows := [{ id := 1, pool_name := "p", resource_id := 5 }],
        ranCmdDelete := true, eventSet := true, warned := false } := by
  have h := (terminate_worker_spec (some "rm it")
    (some { id := 9, state := TState.CLOSED }) 4
    [{ id := 0, pool_name := "p", resource_id := 4 },
     { id := 1, pool_name := "p", resource_id := 5 }]).2
    (Or.inr ⟨_, rfl, rfl⟩)
  rw [h]
  decide

/-- Once `stdout_stopped` is set nothing is appended any more. -/
theorem captureLoop_stopped (budget : Nat) (securely : Bool) :
    ∀ (l : List (List Nat)) (w : Nat) (acc : List Nat),
      captureLoop budget securely l w true acc = acc := by
  intro l
  induction l with
  | nil => intro w acc; rfl
  | cons line rest ih =>
    intro w acc
    simp only [captureLoop, if_true]
    exact ih w acc

/-- Before the capture has stopped, the loop appends exactly `captureLines` to
the accumulator. -/
theorem captureLoop_eq_captureLines (budget : Nat) (securely : Bool) :
    ∀ (l : List (List Nat)) (w : Nat) (acc : List Nat),
      captureLoop budget securely l w false acc =
        acc ++ captureLines budget securely l w := by
  intro l
  induction l with
  | nil => intro w acc; simp [captureLoop, captureLines]
  | cons line rest ih =>
    intro w acc
    by_cases hov : w + line.length > budget
    · simp only [captureLoop, captureLines, Bool.false_eq_true, if_false,
        if_pos hov]
      by_cases h1 : (w == 0 && !securely) = true <;>
        by_cases h2 : (!securely) = true <;>
          by_cases h0 : w = 0 <;>
            simp [h1, h2, h0, captureLoop_stopped, List.append_assoc]
    · simp only [captureLoop, captureLines, Bool.false_eq_true, if_false,
        if_neg hov]
      rw [ih (w + line.length) (acc ++ line)]
      simp [List.append_assoc]

/-- With secure lines the captured output is the concatenation of a prefix of
the whole lines and never exceeds the remaining budget. -/
theorem captureLines_secure (budget : Nat) :
    ∀ (l : List (List Nat)) (w : Nat), w ≤ budget →
      ∃ k, captureLines budget true l w = (l.take k).flatten ∧
        (captureLines budget true l w).length + w ≤ budget := by
  intro l
  induction l with
  | nil =>
    intro w hw
    refine ⟨0, by simp [captureLines], ?_⟩
    simp [captureLines]
    omega
  | cons line rest ih =>
    intro w hw
    by_cases hov : w + line.length > budget
    · refine ⟨0, ?_, ?_⟩
      · simp [captureLines, hov]
      · simp [captureLines, hov]
        omega
    · have hw' : w + line.length ≤ budget := by omega
      obtain ⟨k, hk, hlen⟩ := ih (w + line.length) hw'
      refine ⟨k + 1, ?_, ?_⟩
      · simp only [captureLines, if_neg hov, hk, List.take_succ_cons,
          List.flatten_cons]
      · simp only [captureLines, if_neg hov, List.length_append]
        omega

/-- Without secure lines the captured output stays within the budget plus the
trim marker. -/
theorem captureLines_insecure_length (budget : Nat) :
    ∀ (l : List (List Nat)) (w : Nat), w ≤ budget →
      (captureLines budget false l w).length + w ≤ budget + trimMarker.length := by
  intro l
  induction l with
  | nil =>
    intro w hw
    simp [captureLines]
    omega
  | cons line rest ih =>
    intro w hw
    by_cases hov : w + line.length > budget
    · simp only [captureLines, if_pos hov, Bool.not_false, Bool.and_true,
        if_true, List.length_append]
      by_cases h0 : (w == 0) = true
      · have hw0 : w = 0 := by simpa using h0
        simp only [h0, if_true, List.length_take]
        omega
      · simp only [h0, Bool.false_eq_true, if_false, List.length_nil]
        omega
    · have hw' : w + line.length ≤ budget := by omega
      have := ih (w + line.length) hw'
      simp only [captureLines, if_neg hov, List.length_append]
      omega

/-- Without secure lines: either everything fits (the capture is the whole
output and stays within the budget), or there is a first overflowing line, and
the capture is the lines before it, then (only when nothing was captured yet)
the first `budget` bytes of the overflowing line, then the trim marker, and
nothing further. -/
theorem captureLines_insecure_structure (budget : Nat) :
    ∀ (l : List (List Nat)) (w : Nat), w ≤ budget →
      (captureLines budget false l w = l.flatten ∧
        (captureLines budget false l w).length + w ≤ budget) ∨
      (∃ k, k < l.length ∧
        w + ((l.take k).flatten).length + (l.getD k []).length > budget ∧
        (∀ j, j < k →
          w + ((l.take j).flatten).length + (l.getD j []).length ≤ budget) ∧
        captureLines budget false l w =
          (l.take k).flatten ++
            (if w + ((l.take k).flatten).length = 0 then
              (l.getD k []).take budget
             else []) ++ trimMarker) := by
  intro l
  induction l with
  | nil =>
    intro w hw
    left
    constructor
    · simp [captureLines]
    · simp [captureLines]
      omega
  | cons line rest ih =>
    intro w hw
    by_cases hov : w + line.length > budget
    · right
      refine ⟨0, by simp, ?_, ?_, ?_⟩
      · simpa using hov
      · intro j hj
        omega
      · simp only [List.take_zero, List.flatten_nil, List.length_nil,
          List.getD_cons_zero, List.nil_append, Nat.add_zero]
        simp only [captureLines, if_pos hov, Bool.not_false, Bool.and_true]
        by_cases h0 : w = 0 <;> simp [h0]
    · have hw' : w + line.length ≤ budget := by omega
      rcases ih (w + line.length) hw' with ⟨heq, hlen⟩ | ⟨k, hk, hcond, hfirst, heq⟩
      · left
        constructor
        · simp only [captureLines, if_neg hov, heq, List.flatten_cons]
        · simp only [captureLines, if_neg hov, List.length_append]
          omega
      · right
        refine ⟨k + 1, by simpa using hk, ?_, ?_, ?_⟩
        · simp only [List.take_succ_cons, List.flatten_cons, List.length_append,
            List.getD_cons_succ]
          omega
        · intro j hj
          cases j with
          | zero =>
            simp only [List.take_zero, List.flatten_nil, List.length_nil,
              List.getD_cons_zero, Nat.add_zero]
            omega
          | succ i =>
            have hi : i < k := by omega
            have := hfirst i hi
            simp only [List.take_succ_cons, List.flatten_cons, List.length_append,
              List.getD_cons_succ]
            omega
        · have harith : w + ((line :: rest).take (k + 1)).flatten.length =
              w + line.length + ((rest.take k).flatten).length := by
            simp only [List.take_succ_cons, List.flatten_cons, List.length_append]
            omega
          simp only [captureLines, if_neg hov, heq, List.take_succ_cons,
            List.flatten_cons, List.getD_cons_succ, harith, List.append_assoc]
          have hc : (w + line.length + (List.take k rest).flatten.length = 0) =
              (w + (line ++ (List.take k rest).flatten).length = 0) := by
            rw [List.length_append]
            apply propext
            omega
          simp only [hc]

/-- C5: for every sequence of stdout lines and every positive capture budget N:
the trim marker is 14 bytes; without secure lines run_command captures at most
N + 14 bytes, and the capture is either the whole output within the budget or
the whole lines before the first overflowing line, then (only when nothing was
captured yet) the first N bytes of that line, then the marker, and nothing
further; with secure lines the capture is the concatenation of a prefix of the
whole lines and never exceeds N bytes. -/
theorem run_command_capture_spec (status : Int) (N : Nat)
    (lines : List (List Nat)) (hN : 0 < N) :
    trimMarker.length = 14 ∧
    (∃ cap, run_command status N false lines =
        { status := status, stdout := some cap } ∧
      cap.length ≤ N + 14 ∧
      ((cap = lines.flatten ∧ cap.length ≤ N) ∨
        ∃ k, k < lines.length ∧
          ((lines.take k).flatten).length + (lines.getD k []).length > N ∧
          (∀ j, j < k →
            ((lines.take j).flatten).length + (lines.getD j []).length ≤ N) ∧
          cap = (lines.take k).flatten ++
            (if ((lines.take k).flatten).length = 0 then
              (lines.getD k []).take N
             else []) ++ trimMarker)) ∧
    (∃ cap k, run_command status N true lines =
        { status := status, stdout := some cap } ∧
      cap = (lines.take k).flatten ∧ cap.length ≤ N) := by
  have hNz : (N == 0) = false := by
    simp only [beq_eq_false_iff_ne, ne_eq]
    omega
  have hrun : ∀ b : Bool, run_command status N b lines =
      { status := status, stdout := some (captureLines N b lines 0) } := by
    intro b
    simp only [run_command, hNz, Bool.false_eq_true, if_false,
      captureLoop_eq_captureLines, List.nil_append]
  refine ⟨rfl, ⟨captureLines N false lines 0, hrun false, ?_, ?_⟩,
    captureLines N true lines 0, ?_⟩
  · have := captureLines_insecure_length N lines 0 (Nat.zero_le N)
    have hm : trimMarker.length = 14 := rfl
    omega
  · rcases captureLines_insecure_structure N lines 0 (Nat.zero_le N) with
      ⟨heq, hlen⟩ | ⟨k, hk, hcond, hfirst, heq⟩
    · left
      exact ⟨heq, by omega⟩
    · right
      refine ⟨k, hk, by omega, fun j hj => by have := hfirst j hj; omega, ?_⟩
      rw [heq]
      simp only [Nat.zero_add, List.append_assoc]
  · obtain ⟨k, hk, hlen⟩ := captureLines_secure N lines 0 (Nat.zero_le N)
    exact ⟨k, hrun true, hk, by omega⟩

/-- Witness for C5 at budget 4 and lines [1,2] and [3,4,5]: the first line is
captured whole, the second overflows, so without secure lines the marker is
appended and with secure lines the capture stops at the whole first line. -/
theorem run_command_capture_spec_witness :
    (0 : Nat) < 4 ∧ trimMarker.length = 14 ∧
    (run_command 0 4 false [[1, 2], [3, 4, 5]]).stdout =
      some ([1, 2] ++ trimMarker) ∧
    (run_command 0 4 true [[1, 2], [3, 4, 5]]).stdout = some [1, 2] := by
  refine ⟨by norm_num,
    (run_command_capture_spec 0 4 [[1, 2], [3, 4, 5]] (by norm_num)).1, ?_, ?_⟩ <;>
    decide

/-- A resource already marked DELETE_REQUEST is no clean candidate. -/
theorem clean_candidate_delete_request (r : Resource) :
    clean_candidate { r with state := RState.DELETE_REQUEST } = false := by
  simp [clean_candidate]

/-- C3 (amended): the removal pass maps every resource through two rules: a
check-failure candidate with check_failed_count ≥ 3 goes to DELETE_REQUEST;
otherwise a clean candidate (UP, unbound) goes to DELETE_REQUEST exactly when
the first matching reuse rule fires, the rules tried in order being
(1) reuse_opportunity_time == 0, (2) released_at < now - reuse_opportunity_time,
(3) reuse_max_time ≠ 0 and sandboxed_since < now - reuse_max_time,
(4) reuse_max_count ≠ 0 and releases_counter > reuse_max_count; a clean
candidate matching no rule keeps its state unchanged. -/
theorem request_resource_removal_spec (cfg : Pool) (now : Int)
    (tickets : List Ticket) (resources : List Resource) :
    (_request_resource_removal cfg now tickets resources = resources.map fun r =>
      if check_failure_candidate tickets r ∧ 3 ≤ r.check_failed_count then
        { r with state := RState.DELETE_REQUEST }
      else if clean_candidate r ∧ reusePolicyRemoves cfg now r then
        { r with state := RState.DELETE_REQUEST }
      else r) ∧
    (∀ r : Resource, reusePolicyRemoves cfg now r = true ↔
      (cfg.reuse_opportunity_time = 0 ∨
       (cfg.reuse_opportunity_time ≠ 0 ∧
         r.released_at < now - cfg.reuse_opportunity_time) ∨
       (cfg.reuse_opportunity_time ≠ 0 ∧
         ¬r.released_at < now - cfg.reuse_opportunity_time ∧
         cfg.reuse_max_time ≠ 0 ∧ r.sandboxed_since < now - cfg.reuse_max_time) ∨
       (cfg.reuse_opportunity_time ≠ 0 ∧
         ¬r.released_at < now - cfg.reuse_opportunity_time ∧
         ¬(cfg.reuse_max_time ≠ 0 ∧
           r.sandboxed_since < now - cfg.reuse_max_time) ∧
         cfg.reuse_max_count ≠ 0 ∧
         r.releases_counter > cfg.reuse_max_count))) ∧
    (∀ r : Resource, clean_candidate r = true →
      reusePolicyRemoves cfg now r = false → r.check_failed_count < 3 →
      _request_resource_removal cfg now tickets [r] = [r]) := by
  refine ⟨?_, ?_, ?_⟩
  · rw [_request_resource_removal, List.map_map]
    apply List.map_congr_left
    intro r _
    by_cases h1 : check_failure_candidate tickets r ∧ 3 ≤ r.check_failed_count
    · simp only [Function.comp_apply, if_pos h1]
      rw [if_neg]
      intro hcontra
      have := clean_candidate_delete_request r
      rw [hcontra.1] at this
      cases this
    · simp only [Function.comp_apply, if_neg h1]
  · intro r
    rw [reusePolicyRemoves]
    split_ifs <;> simp_all
  · intro r hclean hrules hfail
    have hnot1 : ¬(check_failure_candidate tickets r ∧ 3 ≤ r.check_failed_count) := by
      intro hcontra
      omega
    have hnot2 : ¬(clean_candidate r ∧ reusePolicyRemoves cfg now r) := by
      intro hcontra
      rw [hrules] at hcontra
      cases hcontra.2
    simp [_request_resource_removal, hnot1, hnot2]

/-- Counterexample to C3 as stated: with reuse_opportunity_time = 1000,
reuse_max_time = -10 and reuse_max_count = 0, an unbound UP resource with
released_at = 0 and sandboxed_since = 0 matches none of the four rules as the
claim states them (rule (3) requires reuse_max_time > 0), yet the code removes
it: `if self.reuse_max_time:` is truthiness, so a negative reuse_max_time
enables rule (3) and 0 < now - (-10) fires it. -/
theorem request_removal_negative_reuse_max_time_cex :
    ((_request_resource_removal
        { reuse_opportunity_time := 1000, reuse_max_time := -10,
          reuse_max_count := 0 } 0 []
        [{ state := RState.UP, released_at := 0, sandboxed_since := 0 }]).map
      fun r => r.state) = [RState.DELETE_REQUEST] ∧
    ¬((1000 : Int) = 0) ∧
    ¬((0 : Int) < 0 - 1000) ∧
    ¬((-10 : Int) > 0) ∧
    ¬((0 : Int) > 0 ∧ (0 : Int) > (0 : Int)) ∧
    ({ state := RState.UP, released_at := 0, sandboxed_since := 0 } :
      Resource).state = RState.UP := by
  refine ⟨?_, by norm_num, by norm_num, by norm_num, by norm_num, rfl⟩
  decide

/-- Witness for C3's amended theorem: a clean candidate matching no amended
rule keeps its state, at concrete values. -/
theorem request_resource_removal_spec_witness :
    clean_candidate { state := RState.UP, released_at := 5 } = true ∧
    reusePolicyRemoves
      { reuse_opportunity_time := 100, reuse_max_time := 0,
        reuse_max_count := 0 } 5 { state := RState.UP, released_at := 5 } = false ∧
    _request_resource_removal
      { reuse_opportunity_time := 100, reuse_max_time := 0,
        reuse_max_count := 0 } 5 []
      [{ state := RState.UP, released_at := 5 }] =
      [{ state := RState.UP, released_at := 5 }] := by
  refine ⟨by decide, by decide, ?_⟩
  exact (request_resource_removal_spec
    { reuse_opportunity_time := 100, reuse_max_time := 0, reuse_max_count := 0 }
    5 [] [{ state := RState.UP, released_at := 5 }]).2.2
    { state := RState.UP, released_at := 5 } (by decide) (by decide) (by decide)

/-- With distinct ids, two list members with the same id are the same
resource. -/
theorem resource_eq_of_id_eq {resources : List Resource}
    (hnodup : (resources.map Resource.id).Nodup) {a b : Resource}
    (ha : a ∈ resources) (hb : b ∈ resources) (hid : a.id = b.id) : a = b :=
  List.inj_on_of_nodup_map hnodup ha hb hid

/-- The watcher's check fold never touches a resource whose id differs from
every item's id: it stays unchanged and its id is never recorded as checked. -/
theorem watcher_fold_frame (pools : List Pool) (now : Int) (status : Nat → Int)
    (r : Resource) :
    ∀ (items : List Resource), (∀ i ∈ items, i.id ≠ r.id) →
    ∀ (acc : List Resource × List Nat),
      (∀ r2 ∈ acc.1, r2.id = r.id → r2 = r) → r.id ∉ acc.2 →
      (∀ r2 ∈ (items.foldl (watcherCheckOne pools now status) acc).1,
        r2.id = r.id → r2 = r) ∧
      r.id ∉ (items.foldl (watcherCheckOne pools now status) acc).2 := by
  intro items
  induction items with
  | nil => intro _ acc h1 h2; exact ⟨h1, h2⟩
  | cons item rest ih =>
    intro hids acc h1 h2
    have hitem : item.id ≠ r.id := hids item (List.mem_cons_self item rest)
    have hrest : ∀ i ∈ rest, i.id ≠ r.id := fun i hi =>
      hids i (List.mem_cons_of_mem item hi)
    rw [List.foldl_cons]
    apply ih hrest
    · intro r2 hr2 hid2
      rcases hfind : pools.find? (fun p => p.id == item.pool) with _ | pool
      · simp only [watcherCheckOne, hfind] at hr2
        exact h1 r2 hr2 hid2
      · simp only [watcherCheckOne, hfind] at hr2
        by_cases hlc : (!(strTruthy pool.cmd_livecheck)) = true
        · rw [if_pos hlc] at hr2
          exact h1 r2 hr2 hid2
        · rw [if_neg hlc] at hr2
          by_cases hdue : item.check_last_time + pool.livecheck_period > now
          · rw [if_pos (by simpa using hdue)] at hr2
            exact h1 r2 hr2 hid2
          · rw [if_neg (by simpa using hdue)] at hr2
            simp only [List.mem_map] at hr2
            obtain ⟨x, hx, hxr2⟩ := hr2
            by_cases hxid : (x.id == item.id) = true
            · rw [if_pos hxid] at hxr2
              exfalso
              apply hitem
              rw [← hid2, ← hxr2]
              have hxe : x.id = item.id := by simpa using hxid
              simp [watcherUpdate, hxid, hxe]
            · rw [if_neg hxid] at hxr2
              exact h1 r2 (hxr2 ▸ hx) hid2
    · rcases hfind : pools.find? (fun p => p.id == item.pool) with _ | pool
      · simp only [watcherCheckOne, hfind]
        exact h2
      · simp only [watcherCheckOne, hfind]
        by_cases hlc : (!(strTruthy pool.cmd_livecheck)) = true
        · rw [if_pos hlc]
          exact h2
        · rw [if_neg hlc]
          by_cases hdue : item.check_last_time + pool.livecheck_period > now
          · rw [if_pos (by simpa using hdue)]
            exact h2
          · rw [if_neg (by simpa using hdue)]
            simp only [List.mem_append, List.mem_singleton]
            rintro (hin | heq)
            · exact h2 hin
            · exact hitem heq.symm

/-- C10: one Watcher loop iteration leaves every UP resource whose pool id is
not a key of the reloaded pool configuration completely unchanged: no
livecheck hook runs for it (its id is not among the checked ids) and the
resource row keeps all its previous values. -/
theorem watcher_skips_unknown_pool (pools : List Pool) (now : Int)
    (status : Nat → Int) (resources : List Resource) (r : Resource)
    (hnodup : (resources.map Resource.id).Nodup) (hmem : r ∈ resources)
    (_hup : r.state = RState.UP) (hnokey : ∀ p ∈ pools, p.id ≠ r.pool) :
    (∀ r2 ∈ (watcherLoop pools now status resources).1, r2.id = r.id → r2 = r) ∧
    r.id ∉ (watcherLoop pools now status resources).2 := by
  rw [watcherLoop]
  apply watcher_fold_frame
  · intro i hi
    rw [List.mem_filter] at hi
    obtain ⟨himem, hipred⟩ := hi
    simp only [Bool.and_eq_true, List.any_eq_true, beq_iff_eq] at hipred
    obtain ⟨p, hp, hpid⟩ := hipred.2
    intro hideq
    have : i = r := resource_eq_of_id_eq hnodup himem hmem hideq
    exact hnokey p hp (by rw [hpid, this])
  · intro r2 hr2 hid2
    exact resource_eq_of_id_eq hnodup hr2 hmem hid2
  · simp

/-- Witness for C10: pool "p1" is configured with a livecheck, resource 2
lives in the unconfigured pool "p2"; after the loop resource 2 is untouched
and only resource 1 was checked. -/
theorem watcher_skips_unknown_pool_witness :
    (([{ id := 1, pool := "p1", state := RState.UP, check_last_time := 0 },
       { id := 2, pool := "p2", state := RState.UP, check_last_time := 0 }] :
        List Resource).map Resource.id).Nodup ∧
    (2 : Nat) ∉ (watcherLoop
      [{ id := "p1", cmd_livecheck := some "check it", livecheck_period := 1 }]
      10 (fun _ => 1)
      [{ id := 1, pool := "p1", state := RState.UP, check_last_time := 0 },
       { id := 2, pool := "p2", state := RState.UP, check_last_time := 0 }]).2 ∧
    (watcherLoop
      [{ id := "p1", cmd_livecheck := some "check it", livecheck_period := 1 }]
      10 (fun _ => 1)
      [{ id := 1, pool := "p1", state := RState.UP, check_last_time := 0 },
       { id := 2, pool := "p2", state := RState.UP, check_last_time := 0 }]).2 =
      [1] := by
  refine ⟨by decide, ?_, by decide⟩
  exact (watcher_skips_unknown_pool
    [{ id := "p1", cmd_livecheck := some "check it", livecheck_period := 1 }]
    10 (fun _ => 1)
    [{ id := 1, pool := "p1", state := RState.UP, check_last_time := 0 },
     { id := 2, pool := "p2", state := RState.UP, check_last_time := 0 }]
    { id := 2, pool := "p2", state := RState.UP, check_last_time := 0 }
    (by decide) (by decide) rfl (by decide)).2

/-- C2: the per-pool allocation loop stops exactly when on ≥ max, or
free + start ≥ max_prealloc, or start ≥ max_starting, or now < last_start +
start_delay; otherwise one iteration runs allocate, which inserts one Resource
in state STARTING carrying the next id, names it from name_pattern with the
placeholders pool_name and the resource id zero-padded to 8 digits, appends an
IDWithinPool row holding the lowest free slot of the pool, sets the pool row's
last_start to now, and spawns an AllocWorker for the new resource. -/
theorem allocate_more_resources_step_spec (cfg : Pool) (now : Int)
    (st : PoolState) (hpos : 0 < st.next_id) :
    (stopAllocating cfg now st = true ↔
      ((stats cfg.name st.resources).on' : Int) ≥ cfg.max ∨
      ((stats cfg.name st.resources).free : Int) +
          ((stats cfg.name st.resources).start : Int) ≥ cfg.max_prealloc ∨
      ((stats cfg.name st.resources).start : Int) ≥ cfg.max_starting ∨
      now < st.last_start + cfg.start_delay) ∧
    (stopAllocating cfg now st = true →
      _allocate_more_resources cfg now st = st) ∧
    (stopAllocating cfg now st = false →
      _allocate_more_resources cfg now st =
        _allocate_more_resources cfg now (cfg.allocate now st)) ∧
    ((cfg.allocate now st).resources = st.resources ++
      [{ id := st.next_id, pool := cfg.name,
         name := careful_string_format cfg.name_pattern
           [("id", zfill (toString st.next_id) 8), ("pool_name", cfg.name)],
         state := RState.STARTING }]) ∧
    ((cfg.allocate now st).idRows = st.idRows ++
      [_allocate_pool_id st.idRows cfg.name st.next_id]) ∧
    ((_allocate_pool_id st.idRows cfg.name st.next_id).resource_id =
      st.next_id) ∧
    ((_allocate_pool_id st.idRows cfg.name st.next_id).id ∉
      (st.idRows.filter fun row => row.pool_name == cfg.name).map
        IDWithinPool.id) ∧
    (∀ j, j < (_allocate_pool_id st.idRows cfg.name st.next_id).id →
      j ∈ (st.idRows.filter fun row => row.pool_name == cfg.name).map
        IDWithinPool.id) ∧
    ((cfg.allocate now st).last_start = now) ∧
    ((cfg.allocate now st).spawned = st.spawned ++ [st.next_id]) := by
  obtain ⟨hp1, hp2, hp3, hp4⟩ := _allocate_pool_id_spec st.idRows cfg.name st.next_id
  refine ⟨?_, ?_, ?_, rfl, rfl, hp2, hp3, hp4, rfl, ?_⟩
  · simp only [stopAllocating, _too_soon, Bool.or_eq_true, decide_eq_true_iff]
    constructor
    · rintro (((h | h) | h) | h)
      · exact Or.inl h
      · exact Or.inr (Or.inl h)
      · exact Or.inr (Or.inr (Or.inl h))
      · exact Or.inr (Or.inr (Or.inr h))
    · rintro (h | h | h | h)
      · exact Or.inl (Or.inl (Or.inl h))
      · exact Or.inl (Or.inl (Or.inr h))
      · exact Or.inl (Or.inr h)
      · exact Or.inr h
  · intro hstop
    rw [_allocate_more_resources, if_pos hstop]
  · intro hstop
    rw [_allocate_more_resources]
    rw [hstop]
    simp
  · have : (st.next_id != 0) = true := by
      simp only [bne_iff_ne, ne_eq]
      omega
    simp [Pool.allocate, this]

/-- Witness for C2 at an empty pool: nothing stops the first iteration, and
allocate produces resource 1 named from the default pattern, slot row 0, and
one spawned worker. -/
theorem allocate_more_resources_step_spec_witness :
    (0 : Nat) < ({ } : PoolState).next_id ∧
    stopAllocating { id := "p", max := 2, max_prealloc := 2 } 5 { } = false ∧
    (Pool.allocate { id := "p", max := 2, max_prealloc := 2 } 5 { }).last_start = 5 ∧
    (Pool.allocate { id := "p", max := 2, max_prealloc := 2 } 5 { }).spawned = [1] ∧
    (Pool.allocate { id := "p", max := 2, max_prealloc := 2 } 5
        { }).resources.map Resource.name = ["p_00000001_\x7bdatetime\x7d"] ∧
    (Pool.allocate { id := "p", max := 2, max_prealloc := 2 } 5
        { }).resources.map Resource.state = [RState.STARTING] := by
  have h := allocate_more_resources_step_spec
    { id := "p", max := 2, max_prealloc := 2 } 5 { } (by norm_num)
  refine ⟨by norm_num, by decide, h.2.2.2.2.2.2.2.2.1, ?_, ?_, ?_⟩
  · rw [h.2.2.2.2.2.2.2.2.2]
    rfl
  · rw [h.2.2.2.1]
    decide
  · rw [h.2.2.2.1]
    decide

/-- Allocate appends exactly one resource row. -/
theorem allocate_length (cfg : Pool) (now : Int) (st : PoolState) :
    (cfg.allocate now st).resources.length = st.resources.length + 1 := by
  simp [Pool.allocate]

/-- The loop allocates at most max_starting - start resources. -/
theorem allocate_more_length_le_start (cfg : Pool) (now : Int) :
    ∀ n (st : PoolState),
      (cfg.max_starting - ((stats cfg.name st.resources).start : Int)).toNat = n →
      (_allocate_more_resources cfg now st).resources.length ≤
        st.resources.length + n := by
  intro n
  induction n using Nat.strong_induction_on with
  | _ n IH =>
    intro st hn
    rw [_allocate_more_resources]
    by_cases hstop : stopAllocating cfg now st = true
    · rw [if_pos hstop]
      exact Nat.le_add_right _ _
    · rw [if_neg hstop]
      have hlt : ((stats cfg.name st.resources).start : Int) < cfg.max_starting := by
        simp only [stopAllocating, Bool.or_eq_true, decide_eq_true_iff] at hstop
        push_neg at hstop
        exact hstop.1.2
      have hstart : (stats cfg.name (cfg.allocate now st).resources).start =
          (stats cfg.name st.resources).start + 1 := by
        rw [stats_allocate]
      have hmeas : (cfg.max_starting -
          ((stats cfg.name (cfg.allocate now st).resources).start : Int)).toNat =
          n - 1 := by
        rw [hstart]
        push_cast
        omega
      have hn1 : n - 1 < n := by omega
      have := IH (n - 1) hn1 (cfg.allocate now st) hmeas
      rw [allocate_length] at this
      omega

/-- The loop allocates at most max - on resources. -/
theorem allocate_more_length_le_on (cfg : Pool) (now : Int) :
    ∀ n (st : PoolState),
      (cfg.max - ((stats cfg.name st.resources).on' : Int)).toNat = n →
      (_allocate_more_resources cfg now st).resources.length ≤
        st.resources.length + n := by
  intro n
  induction n using Nat.strong_induction_on with
  | _ n IH =>
    intro st hn
    rw [_allocate_more_resources]
    by_cases hstop : stopAllocating cfg now st = true
    · rw [if_pos hstop]
      exact Nat.le_add_right _ _
    · rw [if_neg hstop]
      have hlt : ((stats cfg.name st.resources).on' : Int) < cfg.max := by
        simp only [stopAllocating, Bool.or_eq_true, decide_eq_true_iff] at hstop
        push_neg at hstop
        exact hstop.1.1.1
      have hon : (stats cfg.name (cfg.allocate now st).resources).on' =
          (stats cfg.name st.resources).on' + 1 := by
        rw [stats_allocate]
      have hmeas : (cfg.max -
          ((stats cfg.name (cfg.allocate now st).resources).on' : Int)).toNat =
          n - 1 := by
        rw [hon]
        push_cast
        omega
      have hn1 : n - 1 < n := by omega
      have := IH (n - 1) hn1 (cfg.allocate now st) hmeas
      rw [allocate_length] at this
      omega

/-- C9: the allocation loop, run atomically, terminates after at most
min(max, max_starting) allocations: the final resource table is longer by at
most (min cfg.max cfg.max_starting).toNat rows; with max ≤ 0 or max_starting ≤
0 it returns the state unchanged; and every iteration that passes all quota
checks appends exactly one STARTING resource, strictly increasing the pool's
start and on counts. -/
theorem allocate_more_resources_bound (cfg : Pool) (now : Int) (st : PoolState) :
    ((_allocate_more_resources cfg now st).resources.length ≤
      st.resources.length + (min cfg.max cfg.max_starting).toNat) ∧
    ((cfg.max ≤ 0 ∨ cfg.max_starting ≤ 0) →
      _allocate_more_resources cfg now st = st) ∧
    (stopAllocating cfg now st = false →
      (stats cfg.name (cfg.allocate now st).resources).start =
          (stats cfg.name st.resources).start + 1 ∧
        (stats cfg.name (cfg.allocate now st).resources).on' =
          (stats cfg.name st.resources).on' + 1 ∧
        ∃ res, (cfg.allocate now st).resources = st.resources ++ [res] ∧
          res.state = RState.STARTING) := by
  refine ⟨?_, ?_, ?_⟩
  · have h1 := allocate_more_length_le_start cfg now _ st rfl
    have h2 := allocate_more_length_le_on cfg now _ st rfl
    omega
  · intro h
    have hstop : stopAllocating cfg now st = true := by
      simp only [stopAllocating, Bool.or_eq_true, decide_eq_true_iff]
      rcases h with h | h
      · exact Or.inl (Or.inl (Or.inl (by omega)))
      · exact Or.inl (Or.inr (by omega))
    rw [_allocate_more_resources, if_pos hstop]
  · intro _
    refine ⟨by rw [stats_allocate], by rw [stats_allocate], _, rfl, rfl⟩

/-- Witness for C9: a pool with max = 0 allocates nothing. -/
theorem allocate_more_resources_bound_witness :
    ({ id := "p", max := 0 } : Pool).max ≤ 0 ∧
    _allocate_more_resources { id := "p", max := 0 } 7 { } = { } := by
  refine ⟨by norm_num, ?_⟩
  exact (allocate_more_resources_bound { id := "p", max := 0 } 7 { }).2.1
    (Or.inl (by norm_num))

/-- The tag-score fold equals the sum of the matching tags' priorities. -/
theorem assignPriority_foldl (t : Ticket) :
    ∀ (tags : List RTag) (acc : Int),
      tags.foldl (fun acc tag =>
        if tag.priority ≠ none ∧ tag.id ∈ t.tag_set then acc + tag.priority.getD 0
        else acc) acc =
      acc + ((tags.filter fun g =>
        decide (g.priority ≠ none ∧ g.id ∈ t.tag_set)).map
          fun g => g.priority.getD 0).sum := by
  intro tags
  induction tags with
  | nil => intro acc; simp
  | cons g rest ih =>
    intro acc
    by_cases hg : g.priority ≠ none ∧ g.id ∈ t.tag_set
    · have hd : (decide (g.priority ≠ none ∧ g.id ∈ t.tag_set)) = true :=
        decide_eq_true hg
      simp only [List.foldl_cons, if_pos hg, List.filter_cons, hd, if_true,
        List.map_cons, List.sum_cons]
      rw [ih]
      omega
    · have hd : (decide (g.priority ≠ none ∧ g.id ∈ t.tag_set)) = false :=
        decide_eq_false hg
      simp only [List.foldl_cons, if_neg hg, List.filter_cons, hd,
        Bool.false_eq_true, if_false]
      exact ih acc

/-- Truthiness of a nullable string, spelled out. -/
theorem strTruthy_iff (o : Option String) :
    strTruthy o = true ↔ o ≠ none ∧ o ≠ some "" := by
  cases o with
  | none => simp [strTruthy]
  | some s => by_cases h : s = "" <;> simp [strTruthy, h]

/-- The sandbox guard of the candidate filter, spelled out: it passes exactly
when the resource sandbox is falsy (null or empty) or equals the ticket's. -/
theorem sandbox_guard_iff (rs ts : Option String) :
    (strTruthy rs && rs != ts) = false ↔
      (rs = none ∨ rs = some "" ∨ rs = ts) := by
  cases rs with
  | none => simp [strTruthy]
  | some s =>
    by_cases hs : s = ""
    · simp [strTruthy, hs]
    · have ht : strTruthy (some s) = true := by simp [strTruthy, hs]
      rw [ht, Bool.true_and, bne_eq_false_iff_eq]
      simp [hs]

/-- The candidate guards, spelled out. -/
theorem assignCandidate_iff (t : Ticket) (r : Resource) :
    assignCandidate t r = true ↔
      ((∀ s ∈ t.tag_set, s ∈ tagSetOf r) ∧
        (r.sandbox = none ∨ r.sandbox = some "" ∨ r.sandbox = t.sandbox)) := by
  rw [assignCandidate, Bool.and_eq_true, Bool.not_eq_true',
    sandbox_guard_iff, List.all_eq_true]
  constructor
  · rintro ⟨h1, h2⟩
    exact ⟨fun s hs => by simpa using h2 s hs, h1⟩
  · rintro ⟨h1, h2⟩
    exact ⟨h2, fun s hs => by simpa using h1 s hs⟩

/-- pop_task of the modelled priority queue returns nothing on an empty queue
and otherwise an element with the greatest priority. -/
theorem popTaskAux_spec (queue : List (Resource × Int)) :
    (popTaskAux queue = none → queue = []) ∧
    (∀ x, popTaskAux queue = some x → x ∈ queue ∧ ∀ z ∈ queue, z.2 ≤ x.2) := by
  induction queue with
  | nil => exact ⟨fun _ => rfl, fun x hx => by cases hx⟩
  | cons a rest ih =>
    constructor
    · intro h
      rcases hr : popTaskAux rest with _ | y
      · simp only [popTaskAux, hr] at h
        exact Option.noConfusion h
      · simp only [popTaskAux, hr] at h
        by_cases hgt : y.2 > a.2
        · rw [if_pos hgt] at h; exact Option.noConfusion h
        · rw [if_neg hgt] at h; exact Option.noConfusion h
    · intro x hx
      rcases hr : popTaskAux rest with _ | y <;> simp only [popTaskAux, hr] at hx
      · have hrest : rest = [] := ih.1 hr
        injection hx with hx
        subst hx
        subst hrest
        refine ⟨List.mem_cons_self a [], ?_⟩
        intro z hz
        simp only [List.mem_singleton] at hz
        subst hz
        exact le_rfl
      · obtain ⟨hymem, hybound⟩ := ih.2 y hr
        by_cases hgt : y.2 > a.2
        · rw [if_pos hgt] at hx
          injection hx with hx
          subst hx
          refine ⟨List.mem_cons_of_mem a hymem, ?_⟩
          intro z hz
          rcases List.mem_cons.mp hz with rfl | hz2
          · omega
          · exact hybound z hz2
        · rw [if_neg hgt] at hx
          injection hx with hx
          subst hx
          refine ⟨List.mem_cons_self a rest, ?_⟩
          intro z hz
          rcases List.mem_cons.mp hz with rfl | hz2
          · exact le_rfl
          · exact le_trans (hybound z hz2) (by omega)

/-- C1 (amended): the ticket-assignment pass processes the OPEN tickets with
no bound resource in ascending ticket-id order; for each ticket a ready
resource is a candidate iff the ticket's tag set is a subset of its tag set
and its sandbox is falsy (null or empty) or equals the ticket's sandbox; the
score starts at 0, adds the priority of every resource tag with non-null
priority whose name is in the ticket's tag set, and adds
REUSED_RESOURCE_PRIORITY = 500 exactly when the sandbox is truthy (non-null
and non-empty); the popped candidate has the greatest score and is bound to
the ticket, and a ticket with no candidate leaves the state unchanged. -/
theorem assign_tickets_spec :
    (∀ (t : Ticket) (rs : List Resource) (r : Resource), r ∈ rs →
      (r ∈ rs.filter (assignCandidate t) ↔
        ((∀ s ∈ t.tag_set, s ∈ tagSetOf r) ∧
          (r.sandbox = none ∨ r.sandbox = some "" ∨ r.sandbox = t.sandbox)))) ∧
    (∀ (t : Ticket) (r : Resource), assignPriority t r =
      ((r.tags.filter fun g =>
        decide (g.priority ≠ none ∧ g.id ∈ t.tag_set)).map
          fun g => g.priority.getD 0).sum +
      (if r.sandbox ≠ none ∧ r.sandbox ≠ some "" then REUSED_RESOURCE_PRIORITY
       else 0)) ∧
    (∀ (t : Ticket) (rs : List Resource) (c : Resource),
      popTask (buildQueue t rs) = some c →
      assignCandidate t c = true ∧ c ∈ rs ∧
        ∀ r ∈ rs, assignCandidate t r = true →
          assignPriority t r ≤ assignPriority t c) ∧
    (∀ (t : Ticket) (rs : List Resource),
      rs.filter (assignCandidate t) = [] → popTask (buildQueue t rs) = none) ∧
    (∀ (now : Int) (db : DB) (ticket_id : Nat) (t : Ticket),
      db.tickets.find? (fun tk => tk.id == ticket_id) = some t →
      popTask (buildQueue t (db.resources.filter (isReady db.tickets))) = none →
      assignTicketStep now db ticket_id = db) ∧
    (∀ (now : Int) (db : DB) (ticket_id : Nat) (t : Ticket) (c : Resource),
      db.tickets.find? (fun tk => tk.id == ticket_id) = some t →
      popTask (buildQueue t (db.resources.filter (isReady db.tickets))) = some c →
      assignTicketStep now db ticket_id =
        { db with resources := db.resources.map fun r =>
            if r.id == c.id then assign_ticket now t r else r }) ∧
    (∀ db : DB, List.Sorted (fun a b => a ≤ b) (assignOrder db) ∧
      (∀ i : Nat, i ∈ assignOrder db ↔
        ∃ t ∈ db.tickets, waitingTicket db.resources t = true ∧ t.id = i) ∧
      ∀ now : Int,
        _assign_tickets now db = (assignOrder db).foldl (assignTicketStep now) db) := by
  refine ⟨?_, ?_, ?_, ?_, ?_, ?_, ?_⟩
  · intro t rs r hr
    rw [List.mem_filter]
    constructor
    · rintro ⟨_, hp⟩
      exact (assignCandidate_iff t r).mp hp
    · intro hp
      exact ⟨hr, (assignCandidate_iff t r).mpr hp⟩
  · intro t r
    simp only [assignPriority]
    rw [assignPriority_foldl t r.tags 0, Int.zero_add]
    by_cases htru : strTruthy r.sandbox = true
    · rw [if_pos htru, if_pos ((strTruthy_iff r.sandbox).mp htru)]
    · rw [if_neg htru, if_neg]
      · omega
      · intro hcontra
        exact htru ((strTruthy_iff r.sandbox).mpr hcontra)
  · intro t rs c hc
    rw [popTask] at hc
    rcases haux : popTaskAux (buildQueue t rs) with _ | x
    · rw [haux] at hc
      exact Option.noConfusion hc
    · rw [haux] at hc
      simp only [Option.map_some'] at hc
      obtain ⟨hxmem, hxbound⟩ := (popTaskAux_spec _).2 x haux
      rw [buildQueue] at hxmem
      simp only [List.mem_map] at hxmem
      obtain ⟨r0, hr0f, hx_eq⟩ := hxmem
      rw [List.mem_filter] at hr0f
      have hcx : x.1 = c := by injection hc
      have hc0 : c = r0 := by rw [← hcx, ← hx_eq]
      subst hc0
      refine ⟨hr0f.2, hr0f.1, ?_⟩
      intro r hr hcand
      have hzmem : (r, assignPriority t r) ∈ buildQueue t rs := by
        rw [buildQueue]
        simp only [List.mem_map]
        exact ⟨r, List.mem_filter.mpr ⟨hr, hcand⟩, rfl⟩
      have := hxbound (r, assignPriority t r) hzmem
      rw [← hx_eq] at this
      simpa using this
  · intro t rs h
    rw [popTask, buildQueue, h]
    rfl
  · intro now db ticket_id t hfind hpop
    simp only [assignTicketStep, hfind]
    by_cases hemp : (db.resources.filter (isReady db.tickets)).isEmpty = true
    · rw [if_pos hemp]
    · rw [if_neg hemp]
      simp only [hpop]
  · intro now db ticket_id t c hfind hpop
    by_cases hemp : (db.resources.filter (isReady db.tickets)).isEmpty = true
    · exfalso
      rw [List.isEmpty_iff] at hemp
      rw [hemp] at hpop
      rw [popTask, buildQueue] at hpop
      simp only [List.filter_nil, List.map_nil, popTaskAux] at hpop
      exact Option.noConfusion hpop
    · simp only [assignTicketStep, hfind, if_neg hemp, hpop]
  · intro db
    refine ⟨List.sorted_insertionSort _ _, ?_, fun now => rfl⟩
    intro i
    rw [assignOrder, (List.perm_insertionSort _ _).mem_iff]
    simp only [List.mem_map, List.mem_filter]
    constructor
    · rintro ⟨t, ⟨htm, htw⟩, hid⟩
      exact ⟨t, htm, htw, hid⟩
    · rintro ⟨t, htm, htw, hid⟩
      exact ⟨t, ⟨htm, htw⟩, hid⟩

/-- Counterexample to C1 as stated: a ready resource with the empty-string
sandbox "" is a candidate for a ticket with sandbox "x" (the code's
`if resource.sandbox and …` is Python truthiness, so "" never disqualifies),
although "" is neither null nor equal to "x"; and its score is 0, not the
claimed 500, although its sandbox is non-null. -/
theorem assign_candidate_empty_sandbox_cex :
    (({ id := 1, state := RState.UP, sandbox := some "" } : Resource) ∈
      ([{ id := 1, state := RState.UP, sandbox := some "" }] :
        List Resource).filter
        (assignCandidate { id := 1, sandbox := some "x" })) ∧
    ({ id := 1, state := RState.UP, sandbox := some "" } :
      Resource).sandbox ≠ none ∧
    ({ id := 1, state := RState.UP, sandbox := some "" } :
      Resource).sandbox ≠ ({ id := 1, sandbox := some "x" } : Ticket).sandbox ∧
    assignPriority { id := 1, sandbox := some "x" }
      { id := 1, state := RState.UP, sandbox := some "" } = 0 ∧
    REUSED_RESOURCE_PRIORITY = 500 := by
  refine ⟨?_, by decide, by decide, by decide, rfl⟩
  decide

/-- A concrete ticket for the assignment witness: it requires tag y inside
sandbox "s". -/
def witnessTicket : Ticket := { id := 7, tag_set := ["y"], sandbox := some "s" }

/-- A concrete ready resource for the assignment witness: tags x (priority 1)
and y (priority 3), sandbox "s". -/
def witnessResource : Resource :=
  { id := 4, state := RState.UP, sandbox := some "s",
    tags := [{ id := "x", priority := some 1 }, { id := "y", priority := some 3 }] }

/-- Witness for C1's amended theorem: the concrete resource matches the
concrete ticket, scores 3 + 500 and is the popped candidate. -/
theorem assign_tickets_spec_witness :
    assignPriority witnessTicket witnessResource = 503 ∧
    popTask (buildQueue witnessTicket [witnessResource]) = some witnessResource ∧
    assignCandidate witnessTicket witnessResource = true := by
  refine ⟨?_, by decide, ?_⟩
  · rw [assign_tickets_spec.2.1]
    decide
  · exact (assign_tickets_spec.2.2.1 witnessTicket [witnessResource] _
      (by decide)).1

end Resalloc
